import Mathlib

/-!
Verification development for the antumgo repository.

The Go sources are shallowly embedded: pure functions become Lean functions
over ℤ / ℚ / lists (Go `float64` arithmetic is idealised as exact rational
arithmetic, `int64` as unbounded ℤ, Go strings as Lean strings or character
lists), goroutine pools become explicit small-step machines driven by a
scheduler (a list of worker indices) and per-worker outcome oracles, and the
monotonic clock becomes explicit integer nanosecond values threaded through
the definitions.
-/

namespace Antumgo

/-- Go's `int64(x)` conversion of a non-integral value truncates toward zero.
Modelled on ℚ (floor for non-negative values, ceiling for negative ones). -/
def goTrunc (q : ℚ) : ℤ :=
  if 0 ≤ q then ⌊q⌋ else ⌈q⌉

/-! ## FeeWarfareEngine (src/unnamed/part_003)

`competitorFees` is the Go map `map[string]int64`; it is embedded as an
association list where lookup returns the most recently inserted binding,
matching Go map update/lookup semantics. -/

structure FeeWarfareEngine where
  competitorFees : List (String × ℤ)
  escalationFactor : ℚ
  maxFeeLimit : ℤ
  warfareEnabled : Bool
  networkCongestion : ℚ
  deriving Repr

/-- `NewFeeWarfareEngine` (part_003 lines 53-63): escalation 2.5, limit 50M,
warfare enabled; the congestion field starts at its zero value. -/
def newFeeWarfareEngine : FeeWarfareEngine :=
  { competitorFees := []
    escalationFactor := 5/2
    maxFeeLimit := 50000000
    warfareEnabled := true
    networkCongestion := 0 }

/-- Go `fee, exists := m[op]` on the association-list embedding. -/
def lookupFee (m : List (String × ℤ)) (op : String) : Option ℤ :=
  (m.find? (fun p => p.1 = op)).map (fun p => p.2)

/-- `updateCompetitorFees` (part_003 lines 214-218): store the raw observed
fee when the key is absent or the observed fee exceeds the recorded one. -/
def updateCompetitorFees (fees : List (String × ℤ)) (operation : String) (fee : ℤ) :
    List (String × ℤ) :=
  match lookupFee fees operation with
  | none => (operation, fee) :: fees
  | some currentFee => if currentFee < fee then (operation, fee) :: fees else fees

/-- `getBaseFee` (part_003 lines 220-231): a three-entry map with default
1000000, embedded as the equivalent conditional chain. -/
def getBaseFee (operation : String) : ℤ :=
  if operation = "claim" then 9400000
  else if operation = "transfer" then 3200000
  else if operation = "payment" then 1000000
  else 1000000

/-- `FeeWarfareEngine.CalculateWarfareFee` (part_003 lines 135-171):
escalate the highest recorded competitor fee, multiply by urgency and by
`1 + networkCongestion`, then clamp at `maxFeeLimit`.  A missing map key
reads as 0 in Go, hence the `getD 0`. -/
def calculateWarfareFee (fwe : FeeWarfareEngine) (operation : String) (urgency : ℚ) : ℤ :=
  if fwe.warfareEnabled = true then
    let competitorFee0 := (lookupFee fwe.competitorFees operation).getD 0
    let competitorFee := if competitorFee0 = 0 then getBaseFee operation else competitorFee0
    let warfareFee := goTrunc ((competitorFee : ℚ) * fwe.escalationFactor)
    let urgencyFee := goTrunc ((warfareFee : ℚ) * urgency)
    let finalFee := goTrunc ((urgencyFee : ℚ) * (1 + fwe.networkCongestion))
    if finalFee > fwe.maxFeeLimit then fwe.maxFeeLimit else finalFee
  else getBaseFee operation

/-! ## util.CalculateQuantumFee (src/util/quantum_timing.go lines 750-786) -/

/-- The `networkConditions map[string]interface{}` argument: only the
`congestion` (float64) and `competitors` (int) entries are read. -/
structure NetworkConditions where
  congestion : Option ℚ
  competitors : Option ℤ

/-- `CalculateQuantumFee` (quantum_timing.go lines 750-786): base fee by
operation, 2.5x quantum multiplier, optional congestion and competitor
multipliers, capped at 50000000. -/
def calculateQuantumFee (operation : String) (nc : NetworkConditions) : ℤ :=
  let baseFee : ℤ :=
    if operation = "claim" then 9400000
    else if operation = "transfer" then 3200000
    else if operation = "payment" then 1000000
    else 1000000
  let quantumMultiplier : ℚ := 5/2
  let congestion : ℚ :=
    match nc.congestion with
    | some c => 1 + c
    | none => 1
  let competitorBonus : ℚ :=
    match nc.competitors with
    | some n => 1 + (n : ℚ) * (1/10)
    | none => 1
  let finalFee := goTrunc ((baseFee : ℚ) * quantumMultiplier * congestion * competitorBonus)
  let maxFee : ℤ := 50000000
  if finalFee > maxFee then maxFee else finalFee

/-! ## QuantumCore.CalculateWarfareFee (src/unnamed/part_000 lines 145-164,
identical in part_001 lines 147-166) -/

/-- `QuantumCore.CalculateWarfareFee`: 2.5x the largest observed competitor
fee (2.5x the base fee when none were observed).  There is no clamp. -/
def qcCalculateWarfareFee (baseFee : ℚ) (competitorFees : List ℚ) : ℚ :=
  if competitorFees = [] then baseFee * (5/2)
  else
    let maxCompetitorFee := competitorFees.foldl (fun m fee => if fee > m then fee else m) 0
    maxCompetitorFee * (5/2)

theorem goTrunc_intCast (w : ℤ) : goTrunc (w : ℚ) = w := by
  unfold goTrunc
  split_ifs <;> simp

/-- Claim C5, counterexample: `QuantumCore.CalculateWarfareFee` (cited as a
source of the claim) applies no maximum: observing a single competitor fee of
40000000 produces 100000000, which exceeds the configured 50000000 maximum
fee limit, so the produced priority/fee value does leave the configured
interval. -/
theorem c5_counterexample :
    qcCalculateWarfareFee 1000000 [40000000] = 100000000 ∧
    newFeeWarfareEngine.maxFeeLimit < 100000000 := by
  constructor
  · norm_num [qcCalculateWarfareFee]
  · norm_num [newFeeWarfareEngine]

/-- Claim C5, amended: the two fee calculators that do configure a maximum
(`FeeWarfareEngine.CalculateWarfareFee` and `util.CalculateQuantumFee`) never
return more than that maximum, for every engine state reachable by competitor
observations, every operation, urgency and network-condition input (for the
engine, provided its limit is at least the largest base fee 9400000, as the
constructed engine's 50000000 limit is: with warfare disabled the engine
returns a base fee without consulting the limit). -/
theorem c5_fee_bounded_by_limit (fwe : FeeWarfareEngine) (operation op2 : String)
    (urgency : ℚ) (nc : NetworkConditions) (h : 9400000 ≤ fwe.maxFeeLimit) :
    calculateWarfareFee fwe operation urgency ≤ fwe.maxFeeLimit ∧
    calculateQuantumFee op2 nc ≤ 50000000 := by
  constructor
  · simp only [calculateWarfareFee, getBaseFee]
    split_ifs <;> omega
  · simp only [calculateQuantumFee]
    split_ifs <;> omega

theorem c5_fee_bounded_by_limit_witness :
    9400000 ≤ newFeeWarfareEngine.maxFeeLimit ∧
    (calculateWarfareFee newFeeWarfareEngine "claim" 1 ≤ newFeeWarfareEngine.maxFeeLimit ∧
     calculateQuantumFee "transfer" ⟨none, none⟩ ≤ 50000000) :=
  ⟨by norm_num [newFeeWarfareEngine],
   c5_fee_bounded_by_limit newFeeWarfareEngine "claim" "transfer" 1 ⟨none, none⟩
     (by norm_num [newFeeWarfareEngine])⟩

/-- Claim C6, counterexample: observing competitor fee 100 (above the
recorded 40) stores the raw value 100, not `min(max, 100 * 2.5) = 250`; and
the fee the engine then produces is not a function of the observation and the
escalation factor alone: urgency 2 (with zero congestion) yields 500, not
`min(max, 100 * 2.5) = 250`. -/
theorem c6_counterexample :
    lookupFee (updateCompetitorFees [("claim", 40)] "claim" 100) "claim" = some 100 ∧
    (100 : ℤ) ≠ min 50000000 (goTrunc ((100 : ℚ) * (5/2))) ∧
    calculateWarfareFee
      { competitorFees := updateCompetitorFees [("claim", 40)] "claim" 100
        escalationFactor := 5/2
        maxFeeLimit := 50000000
        warfareEnabled := true
        networkCongestion := 0 } "claim" 2 = 500 ∧
    (500 : ℤ) ≠ min 50000000 (goTrunc ((100 : ℚ) * (5/2))) := by
  have h250 : goTrunc ((100 : ℚ) * (5/2)) = 250 := by norm_num [goTrunc]
  have hupd : updateCompetitorFees [("claim", 40)] "claim" 100 = [("claim", 100), ("claim", 40)] := by
    decide
  refine ⟨by decide, by rw [h250, min_def]; norm_num, ?_, by rw [h250, min_def]; norm_num⟩
  rw [hupd]
  norm_num [calculateWarfareFee, lookupFee, goTrunc, List.find?]

/-- Claim C6, amended: on observing competitor value v for an operation, the
recorded competitor fee is updated only when no fee is recorded yet or v
exceeds the recorded fee, and the new recorded value is v itself; the
escalation factor and the clamp at `maxFeeLimit` are applied only later by
`CalculateWarfareFee`, which at urgency 1 and zero congestion produces
exactly `min(maxFeeLimit, trunc(recorded * escalationFactor))` (at other
urgency or congestion values those factors enter as further multipliers). -/
theorem c6_observe_update_rule :
    (∀ (fees : List (String × ℤ)) (op : String) (v c : ℤ),
      lookupFee fees op = some c → ¬ c < v → updateCompetitorFees fees op v = fees) ∧
    (∀ (fees : List (String × ℤ)) (op : String) (v c : ℤ),
      lookupFee fees op = some c → c < v →
        lookupFee (updateCompetitorFees fees op v) op = some v) ∧
    (∀ (fees : List (String × ℤ)) (op : String) (v : ℤ),
      lookupFee fees op = none → lookupFee (updateCompetitorFees fees op v) op = some v) ∧
    (∀ (fwe : FeeWarfareEngine) (op : String) (c : ℤ),
      fwe.warfareEnabled = true → fwe.networkCongestion = 0 →
      lookupFee fwe.competitorFees op = some c → c ≠ 0 →
        calculateWarfareFee fwe op 1 =
          min fwe.maxFeeLimit (goTrunc ((c : ℚ) * fwe.escalationFactor))) := by
  refine ⟨?_, ?_, ?_, ?_⟩
  · intro fees op v c hl hlt
    simp [updateCompetitorFees, hl, hlt]
  · intro fees op v c hl hlt
    simp only [updateCompetitorFees, hl, hlt, if_true]
    simp [lookupFee, List.find?]
  · intro fees op v hl
    simp only [updateCompetitorFees, hl]
    simp [lookupFee, List.find?]
  · intro fwe op c hw hcong hl hc
    simp only [calculateWarfareFee, hw, if_true, hl, Option.getD_some, hc, if_neg, ite_false,
      hcong, add_zero, mul_one, goTrunc_intCast]
    rw [min_def]
    split_ifs <;> omega

theorem c6_observe_update_rule_witness :
    (lookupFee [("claim", 40)] "claim" = some 40 ∧ ¬ (40 : ℤ) < 30 ∧
      updateCompetitorFees [("claim", 40)] "claim" 30 = [("claim", 40)]) ∧
    (lookupFee [("claim", 40)] "claim" = some 40 ∧ (40 : ℤ) < 100 ∧
      lookupFee (updateCompetitorFees [("claim", 40)] "claim" 100) "claim" = some 100) ∧
    (lookupFee [] "transfer" = none ∧
      lookupFee (updateCompetitorFees [] "transfer" 7) "transfer" = some 7) ∧
    calculateWarfareFee
      { competitorFees := [("claim", 100)]
        escalationFactor := 5/2
        maxFeeLimit := 50000000
        warfareEnabled := true
        networkCongestion := 0 } "claim" 1 =
      min 50000000 (goTrunc ((100 : ℚ) * (5/2))) :=
  ⟨⟨by decide, by decide,
    c6_observe_update_rule.1 [("claim", 40)] "claim" 30 40 (by decide) (by decide)⟩,
   ⟨by decide, by decide,
    c6_observe_update_rule.2.1 [("claim", 40)] "claim" 100 40 (by decide) (by decide)⟩,
   ⟨by decide, c6_observe_update_rule.2.2.1 [] "transfer" 7 (by decide)⟩,
   c6_observe_update_rule.2.2.2 _ "claim" 100 rfl rfl (by decide) (by decide)⟩

/-! ## ExecuteQuantumSupremacy (src/wallet/quantum_wallet.go lines 397-443)

The two goroutines deliver one terminal `error` each through a dedicated
1-buffered channel; `wg.Wait()` blocks until both have finished, after which
both channels are read.  The observable behaviour is therefore a pure
function of the two error values, embedded below. -/

inductive OverallStatus where
  | bothSucceeded
  | partialSuccess
  | bothFailed
  deriving DecidableEq, Repr

/-- The value `ExecuteQuantumSupremacy` returns: a combined error exactly
when both operations failed, `nil` otherwise. -/
def executeQuantumSupremacyReturn (claimErr transferErr : Option String) : Option String :=
  if claimErr.isSome && transferErr.isSome then
    some ("both operations failed - claim: " ++ claimErr.getD "" ++
      ", transfer: " ++ transferErr.getD "")
  else none

/-- The status `ExecuteQuantumSupremacy` reports, following the source's
branch order: combined error (both failed), "Transfer failed but claim
succeeded", "Claim failed but transfer succeeded", or full success. -/
def executeQuantumSupremacyStatus (claimErr transferErr : Option String) : OverallStatus :=
  if claimErr.isSome && transferErr.isSome then .bothFailed
  else if transferErr.isSome then .partialSuccess
  else if claimErr.isSome then .partialSuccess
  else .bothSucceeded

/-- The spec's composite classification table, as a function of the two
success flags (`§8`: `(true,true) -> BothSucceeded`; `(true,false)` or
`(false,true) -> PartialSuccess`; `(false,false) -> BothFailed`). -/
def specCompositeStatus : Bool → Bool → OverallStatus
  | true, true => .bothSucceeded
  | true, false => .partialSuccess
  | false, true => .partialSuccess
  | false, false => .bothFailed

/-- Claim C2: the orchestrator's status is the pure function of the two
success flags given by the spec's table, and it reports overall failure
(a non-nil combined error) exactly when both the claim and the transfer
operation failed. -/
theorem c2_composite_classification (claimErr transferErr : Option String) :
    executeQuantumSupremacyStatus claimErr transferErr =
      specCompositeStatus claimErr.isNone transferErr.isNone ∧
    ((executeQuantumSupremacyReturn claimErr transferErr).isSome ↔
      claimErr.isSome = true ∧ transferErr.isSome = true) := by
  cases claimErr <;> cases transferErr <;>
    simp [executeQuantumSupremacyStatus, executeQuantumSupremacyReturn, specCompositeStatus]

/-! ## The close-channel race coordinator
(`QuantumEngine.executeQuantumClaim`, src/unnamed/part_004 lines 157-194;
`executeQuantumTransfer`, lines 197-234, is the same machine with its own
oracle)

Each worker goroutine runs
`for { select { case <-ctx.Done(): return; case <-claimChan: return;
default: if attempt() { close(claimChan); return }; sleep(retryInterval) } }`.
The embedding is an interleaving small-step machine: a schedule (list of
worker indices) picks which worker performs its next atomic step, and an
oracle gives the result of worker `w`'s `i`-th attempt.  Go channel
semantics: receiving from a closed channel succeeds immediately, and closing
an already-closed channel is a run-time panic that crashes the program. -/

inductive ClaimPC where
  /-- At the top of the loop, about to evaluate the `select`; the attempt of
  iteration `i` runs inside the `default` branch of this step. -/
  | atSelect (i : ℕ)
  /-- The attempt of the current iteration returned success; the worker is
  about to execute `close(claimChan)`. -/
  | atClose
  /-- The attempt failed; the worker is sleeping `retryInterval` before the
  next loop iteration. -/
  | sleeping (i : ℕ)
  /-- The goroutine has returned. -/
  | finished
  deriving DecidableEq, Repr

structure ClaimRaceState where
  numWorkers : ℕ
  chanClosed : Bool
  ctxDone : Bool
  pcs : ℕ → ClaimPC
  crashed : Bool

/-- One atomic step of worker `w`: returns the new program counter, whether
the worker performed `close(claimChan)`, and whether it panicked (close of an
already-closed channel). -/
def claimWorkerStep (oracle : ℕ → ℕ → Bool) (ctxDone chanClosed : Bool) (w : ℕ) :
    ClaimPC → ClaimPC × Bool × Bool
  | .atSelect i =>
    if ctxDone then (.finished, false, false)
    else if chanClosed then (.finished, false, false)
    else if oracle w i then (.atClose, false, false)
    else (.sleeping i, false, false)
  | .atClose => if chanClosed then (.atClose, false, true) else (.finished, true, false)
  | .sleeping i => (.atSelect (i + 1), false, false)
  | .finished => (.finished, false, false)

/-- One global step: the scheduled worker advances by one atomic step (no
step once the program has crashed; scheduling a non-existent worker is a
no-op). -/
def claimRaceStep (oracle : ℕ → ℕ → Bool) (s : ClaimRaceState) (w : ℕ) : ClaimRaceState :=
  if s.crashed then s
  else if w < s.numWorkers then
    let r := claimWorkerStep oracle s.ctxDone s.chanClosed w (s.pcs w)
    { s with
      chanClosed := s.chanClosed || r.2.1
      pcs := Function.update s.pcs w r.1
      crashed := s.crashed || r.2.2 }
  else s

def claimRaceRun (oracle : ℕ → ℕ → Bool) (s : ClaimRaceState) : List ℕ → ClaimRaceState
  | [] => s
  | w :: ws => claimRaceRun oracle (claimRaceStep oracle s w) ws

/-- Initial state of `executeQuantumClaim` with `n` workers. -/
def claimRaceInit (n : ℕ) : ClaimRaceState :=
  { numWorkers := n
    chanClosed := false
    ctxDone := false
    pcs := fun _ => .atSelect 0
    crashed := false }

/-- Claim C1, the failing run: with two workers whose first attempts both
succeed (both are inside the `default` branch before either closes), the
schedule "w0 attempts, w1 attempts, w0 closes, w1 closes" makes the second
worker close the already-closed `claimChan`: the program panics.  A second
concurrent success therefore does fault the program, contradicting the
claim. -/
theorem c1_double_close_panics :
    (claimRaceRun (fun _ _ => true) (claimRaceInit 2) [0, 1, 0, 1]).crashed = true := by
  decide

/-! ## The `ConcurrentProcessor` claim workers
(`executeClaimOperation`, src/wallet/concurrent_processor.go lines 73-109)

Each of the `maxConcurrentOps` goroutines runs
`for { select { case <-ctx.Done(): return; default:
if ClaimWithSponsor() == nil { successCount++; return };
sleep(retryInterval) } }`.
There is no winner channel: a worker's success makes only that worker
return; the others are stopped by nothing except the external context. -/

inductive CPPC where
  | atSelect (i : ℕ)
  | sleeping (i : ℕ)
  | finished
  deriving DecidableEq, Repr

/-- One atomic step of worker `w` of `executeClaimOperation`: check the
context, run the attempt of the current iteration, and either return (on
success) or sleep and loop. -/
def cpWorkerStep (oracle : ℕ → ℕ → Bool) (ctxDone : Bool) (w : ℕ) : CPPC → CPPC
  | .atSelect i => if ctxDone then .finished else if oracle w i then .finished else .sleeping i
  | .sleeping i => .atSelect (i + 1)
  | .finished => .finished

def cpStep (oracle : ℕ → ℕ → Bool) (ctxDone : Bool) (pcs : List CPPC) (w : ℕ) : List CPPC :=
  match pcs.get? w with
  | none => pcs
  | some pc => pcs.set w (cpWorkerStep oracle ctxDone w pc)

def cpRun (oracle : ℕ → ℕ → Bool) (ctxDone : Bool) : List CPPC → List ℕ → List CPPC
  | pcs, [] => pcs
  | pcs, w :: ws => cpRun oracle ctxDone (cpStep oracle ctxDone pcs w) ws

/-- Claim C4, counterexample: in `executeClaimOperation` worker 0 succeeds at
its first attempt, yet worker 1 — whose attempts all fail — then completes
three further full attempt/sleep iterations and is still running: a sibling
worker does not stop when another worker succeeds, let alone within one
in-flight attempt plus one retry interval. -/
theorem c4_counterexample :
    cpRun (fun w _ => w == 0) false (List.replicate 2 (CPPC.atSelect 0))
      [0, 1, 1, 1, 1, 1, 1] = [CPPC.finished, CPPC.atSelect 3] := by
  decide

/-- With an always-failing attempt and a live context, an
`executeClaimOperation` worker alternates between its `select`/attempt step
and its retry sleep forever: after any `2 * k` of its own steps it is again
at the top of the loop, `k` iterations further on. -/
theorem cpWorker_alternates (w : ℕ) :
    ∀ k i, (fun pc => cpWorkerStep (fun _ _ => false) false w pc)^[2 * k] (CPPC.atSelect i) =
      CPPC.atSelect (i + k) := by
  intro k
  induction k with
  | zero => intro i; simp
  | succ k ih =>
    intro i
    have h2 : 2 * (k + 1) = 2 * k + 2 := by ring
    rw [h2, Function.iterate_add_apply]
    have hstep : (fun pc => cpWorkerStep (fun _ _ => false) false w pc)^[2] (CPPC.atSelect i) =
        CPPC.atSelect (i + 1) := rfl
    rw [hstep, ih]
    congr 1
    omega

/-- Claim C4, amended: in the close-channel coordinator
(`executeQuantumClaim`), once `claimChan` is closed, a sibling at its
`select` or in its retry sleep stops without fault within at most two of its
own atomic steps — one in-flight attempt/sleep plus the next `select` — and
steps of other workers neither disturb a sibling's state nor re-open the
closed channel; but a sibling whose own in-flight attempt also succeeded
(about to execute `close`) does not stop cleanly: its next step panics the
program (the double-close bug of claim C1).  In `executeClaimOperation`
there is no winner signal at all: with the context live, a worker whose
attempts fail keeps iterating forever regardless of any sibling's
success. -/
theorem c4_winner_stop_latency (oracle : ℕ → ℕ → Bool) (s : ClaimRaceState) (w i k x : ℕ)
    (hchan : s.chanClosed = true) (hcrash : s.crashed = false) (hw : w < s.numWorkers) :
    (s.pcs w = .atSelect i →
      (claimRaceStep oracle s w).pcs w = .finished ∧
      (claimRaceStep oracle s w).crashed = false) ∧
    (s.pcs w = .sleeping i →
      (claimRaceRun oracle s [w, w]).pcs w = .finished ∧
      (claimRaceRun oracle s [w, w]).crashed = false) ∧
    (s.pcs w = .atClose →
      (claimRaceStep oracle s w).crashed = true) ∧
    (x ≠ w →
      (claimRaceStep oracle s x).pcs w = s.pcs w ∧
      (claimRaceStep oracle s x).chanClosed = true) ∧
    (fun pc => cpWorkerStep (fun _ _ => false) false w pc)^[2 * k] (CPPC.atSelect i) =
      CPPC.atSelect (i + k) := by
  refine ⟨?_, ?_, ?_, ?_, cpWorker_alternates w k i⟩
  · intro hpc
    simp only [claimRaceStep, hcrash, hw, if_true, if_false, Bool.false_eq_true, ite_false,
      hpc, hchan, claimWorkerStep]
    cases s.ctxDone <;> simp [Function.update_same]
  · intro hpc
    show ((claimRaceStep oracle (claimRaceStep oracle s w) w).pcs w = ClaimPC.finished) ∧
      ((claimRaceStep oracle (claimRaceStep oracle s w) w).crashed = false)
    have h1 : claimRaceStep oracle s w =
        { s with
          chanClosed := s.chanClosed || false
          pcs := Function.update s.pcs w (.atSelect (i + 1))
          crashed := s.crashed || false } := by
      simp only [claimRaceStep, hcrash, Bool.false_eq_true, ite_false, hw, if_true, hpc,
        claimWorkerStep]
    rw [h1]
    simp only [claimRaceStep, hcrash, Bool.or_false, hchan, hw, if_true, Bool.false_eq_true,
      ite_false, Function.update_same, claimWorkerStep]
    cases s.ctxDone <;> simp [Function.update_same]
  · intro hpc
    simp [claimRaceStep, hcrash, hw, hpc, claimWorkerStep, hchan]
  · intro hx
    simp only [claimRaceStep, hcrash, Bool.false_eq_true, ite_false]
    by_cases hxn : x < s.numWorkers
    · simp only [hxn, if_true]
      exact ⟨Function.update_noteq (Ne.symm hx) _ _, by rw [hchan, Bool.true_or]⟩
    · simp [hxn, hchan]

theorem c4_winner_stop_latency_witness :
    ((claimRaceStep (fun _ _ => false)
        { numWorkers := 2, chanClosed := true, ctxDone := false,
          pcs := fun _ => .atSelect 3, crashed := false } 1).pcs 1 = .finished ∧
      (claimRaceStep (fun _ _ => false)
        { numWorkers := 2, chanClosed := true, ctxDone := false,
          pcs := fun _ => .atSelect 3, crashed := false } 1).crashed = false) ∧
    (fun pc => cpWorkerStep (fun _ _ => false) false 1 pc)^[2 * 2] (CPPC.atSelect 3) =
      CPPC.atSelect (3 + 2) :=
  ⟨(c4_winner_stop_latency (fun _ _ => false)
      { numWorkers := 2, chanClosed := true, ctxDone := false,
        pcs := fun _ => .atSelect 3, crashed := false } 1 3 2 0 rfl rfl (by decide)).1 rfl,
   (c4_winner_stop_latency (fun _ _ => false)
      { numWorkers := 2, chanClosed := true, ctxDone := false,
        pcs := fun _ => .atSelect 3, crashed := false } 1 3 2 0 rfl rfl (by decide)).2.2.2.2⟩

/-! ## Dual-operation orchestration

`ExecuteQuantumWithdrawal` (src/unnamed/part_004 lines 115-154) launches the
claim coordinator and the transfer coordinator in two goroutines, each with
its own context derived from the parent (`cancelClaim`/`cancelTransfer` are
only invoked by `defer` after `wg.Wait()`, i.e. after both coordinators have
already returned, so during execution each coordinator sees only the parent
context).  `executeQuantumTransfer` is the same worker machine as
`executeQuantumClaim` with its own oracle, so both coordinators are
`claimRaceRun` machines over disjoint state.

`ExecuteQuantumSupremacy` (src/wallet/quantum_wallet.go lines 397-443) runs
`QuantumClaimBalance` and `QuantumTransfer` in two goroutines, joins both
with `wg.Wait()`, reads both result channels and classifies.  In
`QuantumClaimBalance` (lines 136-191) each of the 1000 workers attempts
once; the call returns nil exactly when some worker's attempt succeeds, and
an error otherwise — embedded result-level below, the per-worker attempt
outcomes given by an oracle.

`ExecuteIndependentOperations` (src/wallet/concurrent_processor.go lines
35-70) runs `executeClaimOperation` and `executeTransferOperation` in two
goroutines and joins them with `wg.Wait()` — but each of those functions
merely sleeps to the unlock time, spawns its `maxConcurrentOps` workers in a
plain loop and returns at once, so the join covers only the two spawners,
not the workers, and the orchestrator then returns nil unconditionally. -/

/-- The pair of coordinator runs of `ExecuteQuantumWithdrawal`: each machine
has its own oracle and its own schedule, and sees only the parent context —
there is no shared state through which one operation's failures could reach
the other. -/
def executeQuantumWithdrawal (parentCtxDone : Bool) (claimOracle transferOracle : ℕ → ℕ → Bool)
    (n : ℕ) (claimSchedule transferSchedule : List ℕ) : ClaimRaceState × ClaimRaceState :=
  (claimRaceRun claimOracle
    { numWorkers := n, chanClosed := false, ctxDone := parentCtxDone,
      pcs := fun _ => .atSelect 0, crashed := false } claimSchedule,
   claimRaceRun transferOracle
    { numWorkers := n, chanClosed := false, ctxDone := parentCtxDone,
      pcs := fun _ => .atSelect 0, crashed := false } transferSchedule)

/-- Terminal result of one `QuantumClaimBalance`/`QuantumTransfer` race:
nil when one of the `n` one-shot workers succeeds, an error otherwise. -/
def quantumRaceResult (oracle : ℕ → Bool) (n : ℕ) (failMsg : String) : Option String :=
  if (List.range n).any oracle then none else some failMsg

/-- `ExecuteQuantumSupremacy`: both terminal results, the returned error and
the reported status; the classification consumes both terminal results. -/
def executeQuantumSupremacyRun (claimOracle transferOracle : ℕ → Bool) (n : ℕ) :
    Option String × Option String × Option String × OverallStatus :=
  let claimErr := quantumRaceResult claimOracle n "quantum claim failed"
  let transferErr := quantumRaceResult transferOracle n "quantum transfer failed"
  (claimErr, transferErr, executeQuantumSupremacyReturn claimErr transferErr,
   executeQuantumSupremacyStatus claimErr transferErr)

/-- `ExecuteIndependentOperations`: the value it returns (always nil — no
branch of the source returns anything else) together with the state each
operation's worker pool has been driven to by its schedule at that return.
Nothing in the return path requires any worker to have terminated: the
`wg.Wait()` covers only the two spawner functions, which return immediately
after launching their workers. -/
def executeIndependentOperations (claimOracle transferOracle : ℕ → ℕ → Bool)
    (ctxDone : Bool) (n : ℕ) (claimSchedule transferSchedule : List ℕ) :
    Option String × List CPPC × List CPPC :=
  (none,
   cpRun claimOracle ctxDone (List.replicate n (CPPC.atSelect 0)) claimSchedule,
   cpRun transferOracle ctxDone (List.replicate n (CPPC.atSelect 0)) transferSchedule)

/-- Claim C3, counterexample: `ExecuteIndependentOperations` with two
workers per operation, all attempts failing and the context live, returns
nil while every worker of both operations is still inside its retry loop —
neither operation has produced a terminal result, so the orchestrator did
not block until both terminal results were available. -/
theorem c3_counterexample :
    executeIndependentOperations (fun _ _ => false) (fun _ _ => false) false 2
      [0, 1] [0, 1] =
      (none, [CPPC.sleeping 0, CPPC.sleeping 0], [CPPC.sleeping 0, CPPC.sleeping 0]) ∧
    CPPC.sleeping 0 ≠ CPPC.finished := by
  decide

/-- Claim C3, amended: in all three orchestrators, replacing one operation's
attempt outcomes (or worker schedule) by any others — including total
failure — leaves the other operation's entire run and result unchanged:
neither coordinator's execution is cancelled, retried or otherwise altered
by the other's failure.  `executeQuantumWithdrawal` (full machine states,
complete schedules) and `executeQuantumSupremacyRun` (terminal results,
whose pair the orchestrator classifies) do block until both terminal
results are available; `executeIndependentOperations` does not — it returns
nil regardless of the worker pools' states, since its join covers only the
two spawner functions. -/
theorem c3_failure_independence (parentCtxDone : Bool)
    (claimOracle claimOracle2 transferOracle transferOracle2 : ℕ → ℕ → Bool)
    (n m : ℕ) (claimSchedule claimSchedule2 transferSchedule transferSchedule2 : List ℕ)
    (rc rc2 rt rt2 : ℕ → Bool) :
    ((executeQuantumWithdrawal parentCtxDone claimOracle transferOracle
        n claimSchedule transferSchedule).2 =
      (executeQuantumWithdrawal parentCtxDone claimOracle2 transferOracle
        n claimSchedule2 transferSchedule).2) ∧
    ((executeQuantumWithdrawal parentCtxDone claimOracle transferOracle
        n claimSchedule transferSchedule).1 =
      (executeQuantumWithdrawal parentCtxDone claimOracle transferOracle2
        n claimSchedule transferSchedule2).1) ∧
    ((executeQuantumSupremacyRun rc rt m).2.1 = (executeQuantumSupremacyRun rc2 rt m).2.1) ∧
    ((executeQuantumSupremacyRun rc rt m).1 = (executeQuantumSupremacyRun rc rt2 m).1) ∧
    ((executeIndependentOperations claimOracle transferOracle parentCtxDone
        n claimSchedule transferSchedule).2.2 =
      (executeIndependentOperations claimOracle2 transferOracle parentCtxDone
        n claimSchedule2 transferSchedule).2.2) ∧
    ((executeIndependentOperations claimOracle transferOracle parentCtxDone
        n claimSchedule transferSchedule).2.1 =
      (executeIndependentOperations claimOracle transferOracle2 parentCtxDone
        n claimSchedule transferSchedule2).2.1) ∧
    ((executeIndependentOperations claimOracle transferOracle parentCtxDone
        n claimSchedule transferSchedule).1 = none) :=
  ⟨rfl, rfl, rfl, rfl, rfl, rfl, rfl⟩

/-! ## Precision scheduling (src/util/quantum_timing.go)

`QuantumSleepUntil` (lines 60-77) and
`QuantumTimer.WaitUntilQuantumMoment` (lines 274-298) are embedded over an
explicit clock in integer nanoseconds.  The clock is idealised as advancing
only where the code suspends: a coarse `time.Sleep(d)` advances it by `d`
plus a non-negative oracle overshoot, and each `runtime.Gosched()` of the
busy-wait loop advances it by the next oracle increment.  A run returns a
trace recording the coarse sleep duration(s) requested, the number of
busy-wait yields, and the clock value at return; `none` means the supplied
oracle lists were too short to drive the run to completion. -/

/-- One millisecond in nanoseconds (`time.Millisecond`). -/
def msNs : ℤ := 1000000

structure SleepTrace where
  /-- Duration passed to the coarse `time.Sleep` (0 when it was skipped). -/
  coarseNs : ℤ
  /-- Number of `runtime.Gosched()` yields in the busy-wait loop. -/
  spinYields : ℕ
  /-- Clock value when the function returns. -/
  wake : ℤ
  deriving DecidableEq, Repr

/-- The busy-wait loop `for time.Now().Before(targetTime) { Gosched() }`. -/
def spinPhase (target : ℤ) : ℤ → List ℤ → Option (ℤ × ℕ)
  | t, [] => if t < target then none else some (t, 0)
  | t, d :: rest =>
    if t < target then (spinPhase target (t + d) rest).map (fun p => (p.1, p.2 + 1))
    else some (t, 0)

/-- `QuantumSleepUntil` (quantum_timing.go lines 60-77): return at once if
the target is already strictly past; otherwise coarse-sleep
`duration - 1ms` when `duration > 1ms`, then busy-wait until the clock is no
longer before the target. -/
def quantumSleepUntil (now target sleepExtra : ℤ) (incs : List ℤ) : Option SleepTrace :=
  if target < now then some ⟨0, 0, now⟩
  else
    let duration := target - now
    let coarse := if duration > msNs then duration - msNs else 0
    let afterSleep := now + coarse + (if duration > msNs then sleepExtra else 0)
    (spinPhase target afterSleep incs).map (fun p => ⟨coarse, p.2, p.1⟩)

structure MomentTrace where
  /-- Durations passed to `time.Sleep` by the coarse branch, in order. -/
  coarseSleeps : List ℤ
  /-- Number of `runtime.Gosched()` yields in the busy-wait branch. -/
  spinYields : ℕ
  /-- Clock value when the function returns. -/
  wake : ℤ
  deriving DecidableEq, Repr

/-- The retry loop of `WaitUntilQuantumMoment`: re-read the clock; stop when
the remaining time is not positive; coarse-sleep `remaining - 1ms` when
`remaining > 1ms` and loop; otherwise busy-wait to the target and stop. -/
def waitQMLoop (target : ℤ) : ℤ → List ℤ → List ℤ → Option MomentTrace
  | t, [], incs =>
    if target - t ≤ 0 then some ⟨[], 0, t⟩
    else if target - t > msNs then none
    else (spinPhase target t incs).map (fun p => ⟨[], p.2, p.1⟩)
  | t, e :: rest, incs =>
    if target - t ≤ 0 then some ⟨[], 0, t⟩
    else if target - t > msNs then
      (waitQMLoop target (t + (target - t - msNs) + e) rest incs).map
        (fun tr => ⟨(target - t - msNs) :: tr.coarseSleeps, tr.spinYields, tr.wake⟩)
    else (spinPhase target t incs).map (fun p => ⟨[], p.2, p.1⟩)

/-- `QuantumTimer.WaitUntilQuantumMoment` (quantum_timing.go lines 274-298):
an immediate return when the target is the zero time, else the retry loop. -/
def waitUntilQuantumMoment (isZero : Bool) (target now : ℤ)
    (sleepExtras incs : List ℤ) : Option MomentTrace :=
  if isZero then some ⟨[], 0, now⟩
  else waitQMLoop target now sleepExtras incs

theorem spinPhase_wake_ge (target : ℤ) :
    ∀ (t : ℤ) (incs : List ℤ) (p : ℤ × ℕ), spinPhase target t incs = some p → target ≤ p.1 := by
  intro t incs
  induction incs generalizing t with
  | nil =>
    intro p hp
    simp only [spinPhase] at hp
    split_ifs at hp with hlt
    cases hp
    show target ≤ t
    omega
  | cons d rest ih =>
    intro p hp
    simp only [spinPhase] at hp
    split_ifs at hp with hlt
    · obtain ⟨q, hq, rfl⟩ := Option.map_eq_some'.mp hp
      exact ih (t + d) q hq
    · cases hp
      show target ≤ t
      omega

theorem waitQMLoop_wake_ge (target : ℤ) :
    ∀ (extras : List ℤ) (t : ℤ) (incs : List ℤ) (tr : MomentTrace),
      waitQMLoop target t extras incs = some tr → target ≤ tr.wake := by
  intro extras
  induction extras with
  | nil =>
    intro t incs tr htr
    simp only [waitQMLoop] at htr
    split_ifs at htr with h1
    · cases htr
      show target ≤ t
      omega
    · obtain ⟨q, hq, rfl⟩ := Option.map_eq_some'.mp htr
      exact spinPhase_wake_ge target t incs q hq
  | cons e rest ih =>
    intro t incs tr htr
    simp only [waitQMLoop] at htr
    split_ifs at htr with h1 h2
    · cases htr
      show target ≤ t
      omega
    · obtain ⟨q, hq, rfl⟩ := Option.map_eq_some'.mp htr
      exact ih _ incs q hq
    · obtain ⟨q, hq, rfl⟩ := Option.map_eq_some'.mp htr
      exact spinPhase_wake_ge target t incs q hq

/-- Claim C7: when the target is not after the current clock reading, both
wait operations return immediately — no coarse sleep is requested and no
busy-wait yield is performed — and the clock at return is the entry reading,
so the overshoot a caller observes, wake − target, equals now − target. -/
theorem c7_past_target_immediate (now target sleepExtra : ℤ) (incs : List ℤ)
    (isZero : Bool) (extras : List ℤ) (h : target ≤ now) :
    (∃ tr, quantumSleepUntil now target sleepExtra incs = some tr ∧
      tr.coarseNs = 0 ∧ tr.spinYields = 0 ∧ tr.wake = now ∧
      tr.wake - target = now - target) ∧
    (∃ tm, waitUntilQuantumMoment isZero target now extras incs = some tm ∧
      tm.coarseSleeps = [] ∧ tm.spinYields = 0 ∧ tm.wake = now) := by
  constructor
  · by_cases hlt : target < now
    · exact ⟨⟨0, 0, now⟩, by simp [quantumSleepUntil, hlt], rfl, rfl, rfl, rfl⟩
    · have heq : target = now := by omega
      refine ⟨⟨0, 0, now⟩, ?_, rfl, rfl, rfl, rfl⟩
      subst heq
      cases incs <;> simp [quantumSleepUntil, spinPhase, msNs]
  · cases isZero with
    | true => exact ⟨⟨[], 0, now⟩, by simp [waitUntilQuantumMoment], rfl, rfl, rfl⟩
    | false =>
      refine ⟨⟨[], 0, now⟩, ?_, rfl, rfl, rfl⟩
      have hle : target - now ≤ 0 := by omega
      cases extras <;> simp [waitUntilQuantumMoment, waitQMLoop, hle]

theorem c7_past_target_immediate_witness :
    (10 : ℤ) ≤ 10 ∧
    ((∃ tr, quantumSleepUntil 10 10 7 [5] = some tr ∧
      tr.coarseNs = 0 ∧ tr.spinYields = 0 ∧ tr.wake = 10 ∧ tr.wake - 10 = 10 - 10) ∧
     (∃ tm, waitUntilQuantumMoment false 10 10 [3] [5] = some tm ∧
      tm.coarseSleeps = [] ∧ tm.spinYields = 0 ∧ tm.wake = 10)) :=
  ⟨le_refl 10, c7_past_target_immediate 10 10 7 [5] false [3] (le_refl 10)⟩

/-- Claim C8: for a strictly future target, `QuantumSleepUntil` requests a
coarse sleep of exactly `duration - 1ms` when the remaining duration exceeds
the 1ms safety margin and no coarse sleep otherwise, then busy-waits, and
the clock at return is at least the target; `WaitUntilQuantumMoment` (with a
non-zero target time) likewise first coarse-sleeps `remaining - 1ms` only
when `remaining > 1ms`, and returns with the clock at or past the target. -/
theorem c8_future_target (now target sleepExtra : ℤ) (incs extras : List ℤ)
    (tr : SleepTrace) (tm : MomentTrace) (h : now < target)
    (h1 : quantumSleepUntil now target sleepExtra incs = some tr)
    (h2 : waitUntilQuantumMoment false target now extras incs = some tm) :
    tr.coarseNs = (if msNs < target - now then target - now - msNs else 0) ∧
    target ≤ tr.wake ∧
    (msNs < target - now → ∃ rest, tm.coarseSleeps = (target - now - msNs) :: rest) ∧
    (target - now ≤ msNs → tm.coarseSleeps = []) ∧
    target ≤ tm.wake := by
  have hnlt : ¬ target < now := by omega
  simp only [quantumSleepUntil, hnlt, ite_false, Bool.false_eq_true] at h1
  obtain ⟨q, hq, rfl⟩ := Option.map_eq_some'.mp h1
  simp only [waitUntilQuantumMoment, Bool.false_eq_true, ite_false] at h2
  refine ⟨?_, spinPhase_wake_ge target _ incs q hq, ?_, ?_, waitQMLoop_wake_ge target extras now incs tm h2⟩
  · simp only [gt_iff_lt]
  · intro hbig
    cases extras with
    | nil =>
      simp only [waitQMLoop] at h2
      split_ifs at h2 with ha
      exact absurd ha (by omega)
    | cons e rest =>
      simp only [waitQMLoop] at h2
      split_ifs at h2 with ha
      · exact absurd ha (by omega)
      · obtain ⟨u, hu, rfl⟩ := Option.map_eq_some'.mp h2
        exact ⟨u.coarseSleeps, rfl⟩
  · intro hsmall
    have hpos : ¬ target - now ≤ 0 := by omega
    have hnb : ¬ target - now > msNs := by omega
    cases extras with
    | nil =>
      simp only [waitQMLoop, if_neg hpos, if_neg hnb] at h2
      obtain ⟨u, hu, rfl⟩ := Option.map_eq_some'.mp h2
      rfl
    | cons e rest =>
      simp only [waitQMLoop, if_neg hpos, if_neg hnb] at h2
      obtain ⟨u, hu, rfl⟩ := Option.map_eq_some'.mp h2
      rfl

theorem c8_future_target_witness :
    (0 : ℤ) < 5000000 ∧
    quantumSleepUntil 0 5000000 0 [1000000, 1000000] =
      some ⟨4000000, 1, 5000000⟩ ∧
    waitUntilQuantumMoment false 5000000 0 [0] [1000000, 1000000] =
      some ⟨[4000000], 1, 5000000⟩ ∧
    ((⟨4000000, 1, 5000000⟩ : SleepTrace).coarseNs =
      (if msNs < 5000000 - 0 then 5000000 - 0 - msNs else 0) ∧
     (5000000 : ℤ) ≤ (⟨4000000, 1, 5000000⟩ : SleepTrace).wake ∧
     (msNs < 5000000 - 0 →
       ∃ rest, (⟨[4000000], 1, 5000000⟩ : MomentTrace).coarseSleeps =
         (5000000 - 0 - msNs) :: rest) ∧
     ((5000000 : ℤ) - 0 ≤ msNs →
       (⟨[4000000], 1, 5000000⟩ : MomentTrace).coarseSleeps = []) ∧
     (5000000 : ℤ) ≤ (⟨[4000000], 1, 5000000⟩ : MomentTrace).wake) :=
  ⟨by decide, by decide, by decide,
   c8_future_target 0 5000000 0 [1000000, 1000000] [0] ⟨4000000, 1, 5000000⟩
     ⟨[4000000], 1, 5000000⟩ (by decide) (by decide) (by decide)⟩

/-! ## QuantumRetry (src/util/quantum_timing.go lines 889-906)

`operation` is embedded as an oracle from the invocation index to the error
it returns (`none` = Go `nil` = success).  The loop body is
`lastErr = operation(); if lastErr == nil { return nil }` followed by a
backoff sleep, and after `maxAttempts` failures the function returns an
error wrapping the last failure.  The embedding also returns the number of
invocations performed. -/

/-- The error built by `fmt.Errorf("quantum retry failed after %d attempts: %v", ...)`. -/
def wrapRetryError (maxAttempts : ℕ) (lastErr : Option String) : String :=
  "quantum retry failed after " ++ toString maxAttempts ++ " attempts: " ++
    lastErr.getD "<nil>"

/-- The retry loop, `fuel` iterations remaining, `attempt` the index of the
next invocation, `lastErr` the error of the previous one. -/
def retryLoop (op : ℕ → Option String) (maxAttempts : ℕ) :
    ℕ → ℕ → Option String → Option String × ℕ
  | 0, attempt, lastErr => (some (wrapRetryError maxAttempts lastErr), attempt)
  | fuel + 1, attempt, lastErr =>
    match op attempt with
    | none => (none, attempt + 1)
    | some e =>
      have _ := lastErr
      retryLoop op maxAttempts fuel (attempt + 1) (some e)

/-- `QuantumRetry`: result and number of invocations performed. -/
def quantumRetry (op : ℕ → Option String) (maxAttempts : ℕ) : Option String × ℕ :=
  retryLoop op maxAttempts maxAttempts 0 none

theorem retryLoop_count_le (op : ℕ → Option String) (m : ℕ) :
    ∀ (fuel attempt : ℕ) (lastErr : Option String),
      (retryLoop op m fuel attempt lastErr).2 ≤ attempt + fuel := by
  intro fuel
  induction fuel with
  | zero => intro a le; simp [retryLoop]
  | succ f ih =>
    intro a le
    simp only [retryLoop]
    cases hop : op a with
    | none =>
      show a + 1 ≤ a + (f + 1)
      omega
    | some e =>
      show (retryLoop op m f (a + 1) (some e)).2 ≤ a + (f + 1)
      have := ih (a + 1) (some e)
      omega

theorem retryLoop_none_iff (op : ℕ → Option String) (m : ℕ) :
    ∀ (fuel attempt : ℕ) (lastErr : Option String),
      ((retryLoop op m fuel attempt lastErr).1 = none ↔
        ∃ k, k < fuel ∧ op (attempt + k) = none) := by
  intro fuel
  induction fuel with
  | zero => intro a le; simp [retryLoop]
  | succ f ih =>
    intro a le
    simp only [retryLoop]
    cases hop : op a with
    | none =>
      constructor
      · intro _
        exact ⟨0, by omega, by simpa using hop⟩
      · intro _
        rfl
    | some e =>
      show (retryLoop op m f (a + 1) (some e)).1 = none ↔ _
      rw [ih (a + 1) (some e)]
      constructor
      · rintro ⟨k, hk, hop2⟩
        exact ⟨k + 1, by omega, by rw [show a + (k + 1) = a + 1 + k by omega]; exact hop2⟩
      · rintro ⟨k, hk, hop2⟩
        cases k with
        | zero => rw [Nat.add_zero] at hop2; rw [hop2] at hop; cases hop
        | succ k2 =>
          exact ⟨k2, by omega, by rw [show a + 1 + k2 = a + (k2 + 1) by omega]; exact hop2⟩

theorem retryLoop_first_success (op : ℕ → Option String) (m : ℕ) :
    ∀ (fuel attempt : ℕ) (lastErr : Option String) (j : ℕ),
      attempt ≤ j → j < attempt + fuel → op j = none →
      (∀ i, attempt ≤ i → i < j → op i ≠ none) →
      retryLoop op m fuel attempt lastErr = (none, j + 1) := by
  intro fuel
  induction fuel with
  | zero => intro a le j h1 h2; exact absurd h2 (by omega)
  | succ f ih =>
    intro a le j h1 h2 hj hmin
    simp only [retryLoop]
    cases hop : op a with
    | none =>
      have hja : j = a := by
        by_contra hne
        exact hmin a (le_refl a) (by omega) hop
      rw [hja]
    | some e =>
      have hja : a < j := by
        rcases Nat.lt_or_ge a j with h | h
        · exact h
        · have : j = a := by omega
          rw [this, hop] at hj
          cases hj
      exact ih (a + 1) (some e) j (by omega) (by omega) hj
        (fun i hi1 hi2 => hmin i (by omega) hi2)

theorem retryLoop_all_fail (op : ℕ → Option String) (m : ℕ) :
    ∀ (fuel attempt : ℕ) (lastErr : Option String), 0 < fuel →
      (∀ k, k < fuel → op (attempt + k) ≠ none) →
      retryLoop op m fuel attempt lastErr =
        (some (wrapRetryError m (op (attempt + fuel - 1))), attempt + fuel) := by
  intro fuel
  induction fuel with
  | zero => intro a le h0 _; exact absurd h0 (by omega)
  | succ f ih =>
    intro a le _ hall
    simp only [retryLoop]
    cases hop : op a with
    | none => exact absurd (by simpa using hop) (hall 0 (by omega))
    | some e =>
      by_cases hf : f = 0
      · subst hf
        show retryLoop op m 0 (a + 1) (some e) =
          (some (wrapRetryError m (op (a + (0 + 1) - 1))), a + (0 + 1))
        simp only [retryLoop]
        rw [show a + (0 + 1) - 1 = a by omega, hop]
      · have hrec := ih (a + 1) (some e) (by omega) (fun k hk => by
          have := hall (k + 1) (by omega)
          rwa [show a + (k + 1) = a + 1 + k by omega] at this)
        show retryLoop op m f (a + 1) (some e) =
          (some (wrapRetryError m (op (a + (f + 1) - 1))), a + (f + 1))
        rw [hrec, show a + 1 + f - 1 = a + (f + 1) - 1 by omega,
          show a + 1 + f = a + (f + 1) by omega]

/-- Claim C9: for `maxAttempts > 0`, `QuantumRetry` invokes the operation at
most `maxAttempts` times; it returns nil exactly when some of the first
`maxAttempts` invocations returns nil; it stops at the first nil invocation
(invoking the operation exactly `j + 1` times when invocation `j` is the
first to succeed); and when every invocation fails it returns the non-nil
error wrapping the last failure. -/
theorem c9_quantumRetry (op : ℕ → Option String) (maxAttempts : ℕ) (h : 0 < maxAttempts) :
    (quantumRetry op maxAttempts).2 ≤ maxAttempts ∧
    ((quantumRetry op maxAttempts).1 = none ↔ ∃ k, k < maxAttempts ∧ op k = none) ∧
    (∀ j, j < maxAttempts → op j = none → (∀ i, i < j → op i ≠ none) →
      quantumRetry op maxAttempts = (none, j + 1)) ∧
    ((∀ k, k < maxAttempts → op k ≠ none) →
      quantumRetry op maxAttempts =
        (some (wrapRetryError maxAttempts (op (maxAttempts - 1))), maxAttempts)) := by
  refine ⟨?_, ?_, ?_, ?_⟩
  · have := retryLoop_count_le op maxAttempts maxAttempts 0 none
    simpa [quantumRetry] using this
  · have := retryLoop_none_iff op maxAttempts maxAttempts 0 none
    simpa [quantumRetry] using this
  · intro j hj hopj hmin
    exact retryLoop_first_success op maxAttempts maxAttempts 0 none j (by omega) (by omega)
      hopj (fun i _ hi2 => hmin i hi2)
  · intro hall
    have := retryLoop_all_fail op maxAttempts maxAttempts 0 none h
      (fun k hk => by simpa using hall k hk)
    rw [quantumRetry, this]
    simp

theorem c9_quantumRetry_witness :
    0 < 3 ∧
    ((quantumRetry (fun i => if i = 1 then none else some "boom") 3).2 ≤ 3 ∧
      quantumRetry (fun i => if i = 1 then none else some "boom") 3 = (none, 2)) ∧
    quantumRetry (fun _ => some "boom") 3 =
      (some (wrapRetryError 3 (some "boom")), 3) := by
  have h3 : (0 : ℕ) < 3 := by omega
  have hmain := c9_quantumRetry (fun i => if i = 1 then none else some "boom") 3 h3
  have hfail := c9_quantumRetry (fun _ => some "boom") 3 h3
  refine ⟨h3, ⟨hmain.1, ?_⟩, ?_⟩
  · exact hmain.2.2.1 1 (by omega) (by simp)
      (fun i hi => by interval_cases i; simp)
  · have := hfail.2.2.2 (fun k hk => by simp)
    simpa using this

/-! ## GetAvailableBalance (src/wallet/concurrent_processor.go lines 247-271)

The account's balances are embedded pre-parsed (the `ParseFloat` of the
balance string is assumed successful; a parse failure makes the Go function
return an error before any of the behaviour claimed here).  Go strings are
embedded as character lists; `fmt.Sprintf("%.7f", v)` is modelled on exact
rationals as round-half-up to 7 decimal digits, whole part followed by `.`
and exactly seven digit characters. -/

structure HorizonBalance where
  type : String
  balance : ℚ

/-- The extraction loop: the parsed balance of the first `native` entry
(`totalBalance` keeps its zero value when there is none). -/
def nativeBalance (balances : List HorizonBalance) : ℚ :=
  match balances.find? (fun b => b.type = "native") with
  | some b => b.balance
  | none => 0

/-- The available amount: native balance minus
`baseReserve * (2 + SubentryCount)`, clamped to 0 from below. -/
def availableBalance (balances : List HorizonBalance) (subentryCount : ℕ)
    (baseReserve : ℚ) : ℚ :=
  let totalBalance := nativeBalance balances
  let reserve := baseReserve * (2 + (subentryCount : ℚ))
  let available := totalBalance - reserve
  if available < 0 then 0 else available

/-- The seven digits after the decimal point of `Sprintf("%.7f", q)`. -/
def sprintf7Frac (q : ℚ) : List Char :=
  let n : ℤ := ⌊q * 10000000 + 1/2⌋
  let frac : ℕ := (n % 10000000).toNat
  (List.range 7).map (fun k => Char.ofNat (48 + frac / 10 ^ (6 - k) % 10))

/-- `Sprintf("%.7f", q)` for the non-negative values produced here: whole
part, decimal point, seven fraction digits. -/
def sprintf7 (q : ℚ) : List Char :=
  let n : ℤ := ⌊q * 10000000 + 1/2⌋
  (toString (n / 10000000)).data ++ '.' :: sprintf7Frac q

/-- `GetAvailableBalance`: the formatted available amount. -/
def getAvailableBalance (balances : List HorizonBalance) (subentryCount : ℕ)
    (baseReserve : ℚ) : List Char :=
  sprintf7 (availableBalance balances subentryCount baseReserve)

/-- Number of characters after the last decimal point. -/
def decimalPlaces (s : List Char) : ℕ :=
  (s.reverse.takeWhile (fun c => c != '.')).length

theorem length_takeWhile_stop (p : Char → Bool) :
    ∀ (x : List Char) (c0 : Char) (y : List Char),
      (∀ c ∈ x, p c = true) → p c0 = false →
      ((x ++ c0 :: y).takeWhile p).length = x.length := by
  intro x
  induction x with
  | nil =>
    intro c0 y _ hc0
    simp [List.takeWhile_cons, hc0]
  | cons c cs ih =>
    intro c0 y hall hc0
    have hc : p c = true := hall c (by simp)
    simp only [List.cons_append, List.takeWhile_cons, hc, if_true, List.length_cons]
    rw [ih c0 y (fun d hd => hall d (by simp [hd])) hc0]

theorem digitChar_ne_dot (m : ℕ) (hm : m < 10) : (Char.ofNat (48 + m) != '.') = true := by
  interval_cases m <;> decide

theorem sprintf7Frac_digits (q : ℚ) : ∀ c ∈ sprintf7Frac q, (c != '.') = true := by
  intro c hc
  simp only [sprintf7Frac, List.mem_map, List.mem_range] at hc
  obtain ⟨k, _, rfl⟩ := hc
  exact digitChar_ne_dot _ (Nat.mod_lt _ (by omega))

theorem sprintf7Frac_length (q : ℚ) : (sprintf7Frac q).length = 7 := by
  simp [sprintf7Frac]

/-- Claim C10: the available balance is never negative — whenever the native
balance minus the reserve `baseReserve * (2 + subentryCount)` would be
negative it is clamped to exactly 0 — and the formatted result always
carries exactly 7 decimal places. -/
theorem c10_available_balance (balances : List HorizonBalance) (subentryCount : ℕ)
    (baseReserve : ℚ) :
    0 ≤ availableBalance balances subentryCount baseReserve ∧
    (nativeBalance balances - baseReserve * (2 + (subentryCount : ℚ)) < 0 →
      availableBalance balances subentryCount baseReserve = 0) ∧
    decimalPlaces (getAvailableBalance balances subentryCount baseReserve) = 7 := by
  refine ⟨?_, ?_, ?_⟩
  · simp only [availableBalance]
    split_ifs with hneg
    · exact le_refl 0
    · linarith [not_lt.mp hneg]
  · intro hlt
    simp only [availableBalance, if_pos hlt]
  · set q := availableBalance balances subentryCount baseReserve with hq
    show decimalPlaces (sprintf7 q) = 7
    simp only [sprintf7, decimalPlaces]
    rw [List.reverse_append, List.reverse_cons, List.append_assoc, List.singleton_append]
    rw [length_takeWhile_stop _ ((sprintf7Frac q).reverse) '.' _
      (fun c hc => sprintf7Frac_digits q c (List.mem_reverse.mp hc)) (by decide)]
    rw [List.length_reverse, sprintf7Frac_length]

theorem c10_available_balance_witness :
    (nativeBalance [⟨"native", 1⟩] - 1 * (2 + ((0 : ℕ) : ℚ)) < 0) ∧
    availableBalance [⟨"native", 1⟩] 0 1 = 0 ∧
    0 ≤ availableBalance [⟨"native", 1⟩] 0 1 ∧
    decimalPlaces (getAvailableBalance [⟨"native", 1⟩] 0 1) = 7 := by
  have hneg : nativeBalance [⟨"native", 1⟩] - 1 * (2 + ((0 : ℕ) : ℚ)) < 0 := by
    simp only [nativeBalance, List.find?]
    norm_num
  have h := c10_available_balance [⟨"native", 1⟩] 0 1
  exact ⟨hneg, h.2.1 hneg, h.1, h.2.2⟩

end Antumgo
